import Mathlib

/-!
Verification of the violation-aggregation, property-path and execution-engine
core of the `line` validation library.

The Go code is shallowly embedded: Go strings are represented by `String`
(rune iteration by `List Char` via `String.data`), Go `int` by `Int` with the
64-bit bounds made explicit where the code checks them, pointers and in-place
mutation by pure value passing, and Go `error` results by `Option`/`Except`
over an explicit error type.  A `*ViolationListError` (a singly linked list
with a tail pointer and a length field) is represented by the sequence of its
linked nodes together with its `len` field, so that the length bookkeeping of
the source is tracked separately from the node structure.  A `*PropertyPath`
(a backward-linked chain of elements) is represented by its root-to-leaf
element sequence, i.e. by the value of its `Elements()` method.
-/

/-- Go platform constant `math.MaxInt` on a 64-bit platform. -/
def goMaxInt : Nat := 2 ^ 63 - 1

/-- Largest value of Go `uint` on a 64-bit platform (`math.MaxUint64`). -/
def goMaxUint64 : Nat := 2 ^ 64 - 1

/-- Model of a `validation.Violation` value.  The claims only observe a
violation's identity, its `Is` classification and its message, so the model
keeps the `err` field abstractly as the set of error identities reachable by
`errors.Is` through the wrapped error chain, plus the rendered message. -/
structure Violation where
  err : List Nat
  message : String
deriving DecidableEq

/-- `errors.Is(v.err, target)` for a violation: the target error identity is
reachable in the wrapped chain of the violation's underlying error. -/
def Violation.Is (v : Violation) (target : Nat) : Bool :=
  v.err.contains target

/-- Model of `ViolationListError`: the sequence of violations held by the
linked nodes from `first` to `last`, together with the separate `len` field
maintained by the source. -/
structure ViolationListError where
  violations : List Violation
  len : Nat
deriving DecidableEq

/-- `ViolationListError.Len`. -/
def ViolationListError.Len (list : ViolationListError) : Nat :=
  list.len

/-- `ViolationListError.Append(violations...)`: links one node per violation
at the tail and adds `len(violations)` to the length field. -/
def ViolationListError.Append (list : ViolationListError) (vs : List Violation) :
    ViolationListError :=
  { violations := list.violations ++ vs, len := list.len + vs.length }

/-- `NewViolationList(violations...)`. -/
def NewViolationList (vs : List Violation) : ViolationListError :=
  ViolationListError.Append { violations := [], len := 0 } vs

/-- `ViolationListError.Join(violations)`: no-op when the argument is `nil`
(modelled by `none`) or has zero length, otherwise splices the argument's
nodes at the tail and adds its length. -/
def ViolationListError.Join (list : ViolationListError) (other : Option ViolationListError) :
    ViolationListError :=
  match other with
  | none => list
  | some o =>
      if o.len = 0 then list
      else { violations := list.violations ++ o.violations, len := list.len + o.len }

/-- Model of a Go `error` value as classified by `AppendFromError`:
an error that `errors.As`-unwraps to a single `Violation`, one that unwraps
to a `*ViolationListError`, or any other (fatal) error identified by its
text. -/
inductive GoErr where
  | violation (v : Violation)
  | violationList (l : ViolationListError)
  | fatal (text : String)
deriving DecidableEq

/-- `ViolationListError.AsError()`: `nil` for an empty list, otherwise the
list itself viewed as an error. -/
def ViolationListError.AsError (list : ViolationListError) : Option GoErr :=
  if list.len = 0 then none else some (.violationList list)

/-- `ViolationListError.AppendFromError(err)`: returns the updated list and
the propagated fatal error (`nil` on the non-fatal branches). -/
def ViolationListError.AppendFromError (list : ViolationListError) (err : Option GoErr) :
    ViolationListError × Option GoErr :=
  match err with
  | none => (list, none)
  | some (.violation v) => (list.Append [v], none)
  | some (.violationList l) => (list.Join (some l), none)
  | some e => (list, some e)

/-- `ViolationListError.AsSlice()`. -/
def ViolationListError.AsSlice (list : ViolationListError) : List Violation :=
  list.violations

/-- `ViolationListError.ForEach(f)`: applies `f` to each node in order with
its running index, short-circuiting on the first non-nil error. -/
def forEachFrom (f : Nat → Violation → Option GoErr) : Nat → List Violation → Option GoErr
  | _, [] => none
  | i, v :: rest =>
      match f i v with
      | some e => some e
      | none => forEachFrom f (i + 1) rest

/-- `ViolationListError.ForEach(f)` on the whole list. -/
def ViolationListError.ForEach (list : ViolationListError)
    (f : Nat → Violation → Option GoErr) : Option GoErr :=
  forEachFrom f 0 list.violations

/-- Inner loop of `ViolationListError.Filter`: for one node, append one copy
of the violation for every kind it `Is`. -/
def filterKinds (v : Violation) (errs : List Nat) (acc : ViolationListError) :
    ViolationListError :=
  errs.foldl (fun acc2 k => if v.Is k then acc2.Append [v] else acc2) acc

/-- `ViolationListError.Filter(errs...)`: linear scan over the nodes with the
inner loop over the requested kinds, accumulating into a fresh list. -/
def ViolationListError.Filter (list : ViolationListError) (errs : List Nat) :
    ViolationListError :=
  list.violations.foldl (fun acc v => filterKinds v errs acc) { violations := [], len := 0 }

theorem Append_append (l : ViolationListError) (xs ys : List Violation) :
    (l.Append xs).Append ys = l.Append (xs ++ ys) := by
  simp [ViolationListError.Append, Nat.add_assoc]

theorem filterKinds_spec (v : Violation) (errs : List Nat) (acc : ViolationListError) :
    filterKinds v errs acc = acc.Append ((errs.filter fun k => v.Is k).map fun _ => v) := by
  induction errs generalizing acc with
  | nil => simp [filterKinds, ViolationListError.Append]
  | cons k rest ih =>
      simp only [filterKinds, List.foldl_cons, List.filter_cons]
      by_cases h : v.Is k
      · rw [if_pos h]
        have hfold :
            List.foldl (fun acc2 k => if v.Is k = true then acc2.Append [v] else acc2)
              (acc.Append [v]) rest = filterKinds v rest (acc.Append [v]) := rfl
        rw [hfold, ih, Append_append]
        simp [h]
      · rw [if_neg h]
        have hfold :
            List.foldl (fun acc2 k => if v.Is k = true then acc2.Append [v] else acc2)
              acc rest = filterKinds v rest acc := rfl
        rw [hfold, ih]
        simp [h]

theorem filter_loop_spec (vs : List Violation) (errs : List Nat) (acc : ViolationListError) :
    vs.foldl (fun acc v => filterKinds v errs acc) acc
      = acc.Append (vs.flatMap fun v => (errs.filter fun k => v.Is k).map fun _ => v) := by
  induction vs generalizing acc with
  | nil => simp [ViolationListError.Append]
  | cons v rest ih =>
      simp only [List.foldl_cons, List.flatMap_cons]
      rw [filterKinds_spec, ih, Append_append]

/-- C1: `AppendFromError` is the violation/fault classification point: a nil
error is a no-op returning nil; an error unwrapping to a single `Violation`
is appended and nil is returned; an error unwrapping to a
`ViolationListError` is joined and nil is returned; any other error leaves
the list unchanged and is itself returned (propagated as a fatal fault,
never collected as a violation). -/
theorem appendFromError_classification (list : ViolationListError) :
    list.AppendFromError none = (list, none)
    ∧ (∀ v : Violation,
        list.AppendFromError (some (.violation v)) = (list.Append [v], none))
    ∧ (∀ l : ViolationListError,
        list.AppendFromError (some (.violationList l)) = (list.Join (some l), none))
    ∧ (∀ t : String,
        list.AppendFromError (some (.fatal t)) = (list, some (.fatal t))) :=
  ⟨rfl, fun _ => rfl, fun _ => rfl, fun _ => rfl⟩

theorem forEachFrom_spec (f : Nat → Violation → Option GoErr) (vs : List Violation) (i : Nat) :
    forEachFrom f i vs = ((vs.enumFrom i).map fun p => f p.1 p.2).findSome? id := by
  induction vs generalizing i with
  | nil => rfl
  | cons v rest ih =>
      simp only [forEachFrom, List.enumFrom, List.map_cons, List.findSome?_cons]
      cases f i v with
      | some e => rfl
      | none => simpa using ih (i + 1)

/-- C9: appending `N` violations to a fresh list and then joining a list of
`M` violations yields a length of exactly `N + M`, and iteration (`AsSlice`,
`ForEach`) visits the `N` appended violations in their given order followed
by the `M` joined ones in theirs. -/
theorem append_join_len_order (vs ws : List Violation) :
    ((NewViolationList vs).Join (some (NewViolationList ws))).Len
        = vs.length + ws.length
    ∧ ((NewViolationList vs).Join (some (NewViolationList ws))).AsSlice = vs ++ ws
    ∧ ∀ f : Nat → Violation → Option GoErr,
        ((NewViolationList vs).Join (some (NewViolationList ws))).ForEach f
          = (((vs ++ ws).enum).map fun p => f p.1 p.2).findSome? id := by
  have hjoin : (NewViolationList vs).Join (some (NewViolationList ws))
      = { violations := vs ++ ws, len := vs.length + ws.length } := by
    by_cases h : ws.length = 0
    · have hw : ws = [] := List.length_eq_zero.mp h
      subst hw
      simp [NewViolationList, ViolationListError.Append, ViolationListError.Join]
    · simp [NewViolationList, ViolationListError.Append, ViolationListError.Join, h]
  refine ⟨?_, ?_, ?_⟩
  · rw [hjoin]; rfl
  · rw [hjoin]; rfl
  · intro f
    rw [hjoin]
    simpa [ViolationListError.ForEach, List.enum] using
      forEachFrom_spec f (vs ++ ws) 0

/-- C10: `Filter` builds a fresh list that contains, in the original node
order, one copy of each violation for each requested kind that the
violation's underlying error `Is` (so a violation matching two kinds appears
twice), its length field counts those copies, and an empty kind sequence
yields an empty list; the receiver itself is not modified (the model is a
pure function of the receiver). -/
theorem filter_copies_per_kind (list : ViolationListError) (errs : List Nat) :
    (list.Filter errs).AsSlice
        = (list.violations.flatMap fun v => (errs.filter fun k => v.Is k).map fun _ => v)
    ∧ (list.Filter errs).Len
        = (list.violations.flatMap fun v => (errs.filter fun k => v.Is k).map fun _ => v).length
    ∧ list.Filter [] = { violations := [], len := 0 } := by
  refine ⟨?_, ?_, ?_⟩
  · rw [ViolationListError.Filter, filter_loop_spec]
    simp [ViolationListError.Append, ViolationListError.AsSlice]
  · rw [ViolationListError.Filter, filter_loop_spec]
    simp [ViolationListError.Append, ViolationListError.Len]
  · rw [ViolationListError.Filter, filter_loop_spec]
    simp [ViolationListError.Append, Function.comp_def]

/-- Go constant `DefaultGroup`. -/
def DefaultGroup : String := "default"

/-- `Validator.IsAppliedForGroups(groups...)`: `vgroups` is the validator's
own group set (set by `WithGroups`), `groups` the group list passed by the
caller of the method. -/
def IsAppliedForGroups (vgroups groups : List String) : Bool :=
  if vgroups.isEmpty && (groups.isEmpty || groups.contains DefaultGroup) then
    true
  else
    vgroups.any fun g1 => (groups.isEmpty && (g1 == DefaultGroup)) || groups.contains g1

/-- `Validator.IsIgnoredForGroups(groups...)`. -/
def IsIgnoredForGroups (vgroups groups : List String) : Bool :=
  !(IsAppliedForGroups vgroups groups)

/-- Model of a registered validation closure (`ValidateFunc`): Go closures
may carry arbitrary side effects, modelled by explicit state passing over an
abstract state type `σ`; the returned pair `(*ViolationListError, error)` is
modelled by `Except`, whose error branch is the fatal `error` result. -/
def ValidateFunc (σ : Type) : Type :=
  σ → σ × Except GoErr ViolationListError

/-- Loop of `Validator.Validate`: runs each registered closure in
declaration order, returns a fatal error immediately, otherwise joins the
partial lists. -/
def validateLoop {σ : Type} : List (ValidateFunc σ) → ViolationListError → σ →
    σ × Option GoErr
  | [], acc, s => (s, acc.AsError)
  | f :: rest, acc, s =>
      match f s with
      | (s1, .error e) => (s1, some e)
      | (s1, .ok vs) => validateLoop rest (acc.Join (some vs)) s1

/-- `Validator.Validate(ctx, arguments...)`.  The execution-context
registration step is modelled by taking the arguments directly as the list
of closures they register, in declaration order (each argument registers one
closure; the path prefix each closure captures is absorbed into the closure
itself, since the claims never inspect paths here). -/
def Validator.Validate {σ : Type} (arguments : List (ValidateFunc σ)) (s : σ) :
    σ × Option GoErr :=
  validateLoop arguments (NewViolationList []) s

/-- `unwrapViolationList(err)` (the re-classification helper used by the
combinators): collects `err` into a fresh list, or propagates it raw. -/
def unwrapViolationListErr (err : Option GoErr) : Except GoErr ViolationListError :=
  match (NewViolationList []).AppendFromError err with
  | (_, some fatal) => .error fatal
  | (violations, none) => .ok violations

/-- Loop of `SequentialArgument.validate`. -/
def sequentialLoop {σ : Type} : List (ValidateFunc σ) → ViolationListError → σ →
    σ × Except GoErr ViolationListError
  | [], acc, s => (s, .ok acc)
  | a :: rest, acc, s =>
      match Validator.Validate [a] s with
      | (s1, r) =>
          match acc.AppendFromError r with
          | (_, some e) => (s1, .error e)
          | (acc1, none) =>
              if 0 < acc1.len then (s1, .ok acc1) else sequentialLoop rest acc1 s1

/-- `SequentialArgument.validate`: short-circuits on the first sub-argument
that contributes a violation. -/
def SequentialArgument.validate {σ : Type} (isIgnored : Bool)
    (arguments : List (ValidateFunc σ)) (s : σ) :
    σ × Except GoErr ViolationListError :=
  if isIgnored then (s, .ok { violations := [], len := 0 })
  else sequentialLoop arguments { violations := [], len := 0 } s

/-- Loop of `AtLeastOneOfArgument.validate`. -/
def atLeastOneOfLoop {σ : Type} : List (ValidateFunc σ) → ViolationListError → σ →
    σ × Except GoErr ViolationListError
  | [], acc, s => (s, .ok acc)
  | a :: rest, acc, s =>
      match Validator.Validate [a] s with
      | (s1, none) => (s1, .ok { violations := [], len := 0 })
      | (s1, some e) =>
          match acc.AppendFromError (some e) with
          | (_, some fatal) => (s1, .error fatal)
          | (acc1, none) => atLeastOneOfLoop rest acc1 s1

/-- `AtLeastOneOfArgument.validate`: succeeds with an empty list on the
first sub-argument yielding no violations, otherwise accumulates all
violations. -/
def AtLeastOneOfArgument.validate {σ : Type} (isIgnored : Bool)
    (arguments : List (ValidateFunc σ)) (s : σ) :
    σ × Except GoErr ViolationListError :=
  if isIgnored then (s, .ok { violations := [], len := 0 })
  else atLeastOneOfLoop arguments { violations := [], len := 0 } s

/-- `WhenGroupsArgument.validate`: selects the `Then` arguments when the
validator is not ignored for the argument's groups, the `Else` arguments
otherwise, and re-classifies the nested `Validate` outcome. -/
def WhenGroupsArgument.validate {σ : Type} (vgroups arggroups : List String)
    (thenArguments elseArguments : List (ValidateFunc σ)) (s : σ) :
    σ × Except GoErr ViolationListError :=
  let r :=
    if IsIgnoredForGroups vgroups arggroups then Validator.Validate elseArguments s
    else Validator.Validate thenArguments s
  (r.1, unwrapViolationListErr r.2)

/-- C3: `IsAppliedForGroups` is exactly the claimed enablement predicate,
and consequently `WhenGroups(["admin"]).Then(X).Else(Y)` runs only `X` under
a validator scoped to group `"admin"` (the result and the final closure
state are those of running `X` alone) and only `Y` under a validator with no
explicit groups. -/
theorem whenGroups_enablement :
    (∀ vgroups groups : List String,
      IsAppliedForGroups vgroups groups = true ↔
        ((vgroups = [] ∧ (groups = [] ∨ DefaultGroup ∈ groups))
          ∨ (vgroups ≠ [] ∧ ((∃ g, g ∈ vgroups ∧ g ∈ groups)
              ∨ (groups = [] ∧ DefaultGroup ∈ vgroups)))))
    ∧ (∀ (σ : Type) (thenArguments elseArguments : List (ValidateFunc σ)) (s : σ),
        WhenGroupsArgument.validate ["admin"] ["admin"] thenArguments elseArguments s
          = ((Validator.Validate thenArguments s).1,
              unwrapViolationListErr (Validator.Validate thenArguments s).2))
    ∧ (∀ (σ : Type) (thenArguments elseArguments : List (ValidateFunc σ)) (s : σ),
        WhenGroupsArgument.validate [] ["admin"] thenArguments elseArguments s
          = ((Validator.Validate elseArguments s).1,
              unwrapViolationListErr (Validator.Validate elseArguments s).2)) := by
  refine ⟨?_, ?_, ?_⟩
  · intro vgroups groups
    by_cases hv : vgroups = []
    · subst hv
      simp [IsAppliedForGroups, List.isEmpty_iff, List.contains, List.elem_iff]
    · have hne : vgroups.isEmpty = false := by
        simp [List.isEmpty_iff, hv]
      simp only [IsAppliedForGroups, hne, Bool.false_and, Bool.false_eq_true,
        if_false, List.any_eq_true, Bool.or_eq_true, Bool.and_eq_true,
        List.isEmpty_iff, List.contains, List.elem_iff, beq_iff_eq,
        decide_eq_true_eq]
      constructor
      · rintro ⟨g1, hmem, ⟨hge, rfl⟩ | hgin⟩
        · exact Or.inr ⟨hv, Or.inr ⟨hge, hmem⟩⟩
        · exact Or.inr ⟨hv, Or.inl ⟨g1, hmem, hgin⟩⟩
      · rintro (⟨hnil, _⟩ | ⟨_, ⟨g, hm, hin⟩ | ⟨hge, hd⟩⟩)
        · exact absurd hnil hv
        · exact ⟨g, hm, Or.inr hin⟩
        · exact ⟨DefaultGroup, hd, Or.inl ⟨hge, rfl⟩⟩
  · intro σ thenArguments elseArguments s
    rfl
  · intro σ thenArguments elseArguments s
    rfl

/-- `AllFailYields args s sfin vs`: running the sub-arguments of a
combinator from state `s` one after another, every one of them returns a
violation-list error (with a consistent length field, as every list built
through the package API has), `sfin` is the state after the last one and
`vs` is the concatenation of their violations in declaration order. -/
def AllFailYields {σ : Type} : List (ValidateFunc σ) → σ → σ → List Violation → Prop
  | [], s, sfin, vs => sfin = s ∧ vs = []
  | a :: rest, s, sfin, vs =>
      ∃ s1 l tailvs,
        Validator.Validate [a] s = (s1, some (.violationList l))
        ∧ l.len = l.violations.length
        ∧ AllFailYields rest s1 sfin tailvs
        ∧ vs = l.violations ++ tailvs

/-- C4: the Sequential combinator runs sub-arguments in declaration order:
a head sub-argument with no violations passes control (and its state
effects) to the rest; a head sub-argument yielding a violation list with at
least one violation makes the combinator return exactly those violations
with the remaining closures never executed (the resulting state is the state
right after the head); a fatal error is returned immediately with no
violation result. -/
theorem sequential_short_circuit {σ : Type} (a : ValidateFunc σ)
    (rest : List (ValidateFunc σ)) (s s1 : σ) :
    (Validator.Validate [a] s = (s1, none) →
      SequentialArgument.validate false (a :: rest) s
        = SequentialArgument.validate false rest s1)
    ∧ (∀ l : ViolationListError,
        Validator.Validate [a] s = (s1, some (.violationList l)) → 0 < l.len →
          SequentialArgument.validate false (a :: rest) s
            = (s1, .ok { violations := l.violations, len := l.len }))
    ∧ (∀ t : String,
        Validator.Validate [a] s = (s1, some (.fatal t)) →
          SequentialArgument.validate false (a :: rest) s
            = (s1, .error (.fatal t))) := by
  refine ⟨?_, ?_, ?_⟩
  · intro h
    simp only [SequentialArgument.validate, if_neg (by simp : ¬ (false = true)),
      sequentialLoop, h]
    rfl
  · intro l h hlen
    simp only [SequentialArgument.validate, if_neg (by simp : ¬ (false = true)),
      sequentialLoop, h]
    have hne : ¬ l.len = 0 := Nat.pos_iff_ne_zero.mp hlen
    simp [ViolationListError.AppendFromError, ViolationListError.Join, hne, hlen]
  · intro t h
    simp only [SequentialArgument.validate, if_neg (by simp : ¬ (false = true)),
      sequentialLoop, h]
    rfl

/-- C5: the AtLeastOneOf combinator runs sub-arguments in declaration order:
after any all-failing prefix, the first sub-argument yielding zero
violations makes the whole combinator return an empty violation list with
the remaining closures never executed (the resulting state is the state
right after that sub-argument); and when every sub-argument fails, the
combinator returns the concatenation of all their violations in declaration
order. -/
theorem atLeastOneOf_first_success {σ : Type} :
    (∀ (pre : List (ValidateFunc σ)) (b : ValidateFunc σ)
        (rest : List (ValidateFunc σ)) (s s1 s2 : σ) (vs : List Violation),
      AllFailYields pre s s1 vs → Validator.Validate [b] s1 = (s2, none) →
        AtLeastOneOfArgument.validate false (pre ++ b :: rest) s
          = (s2, .ok { violations := [], len := 0 }))
    ∧ (∀ (arguments : List (ValidateFunc σ)) (s sfin : σ) (vs : List Violation),
        AllFailYields arguments s sfin vs →
          AtLeastOneOfArgument.validate false arguments s
            = (sfin, .ok { violations := vs, len := vs.length })) := by
  have loopFail : ∀ (arguments : List (ValidateFunc σ)) (s sfin : σ)
      (vs : List Violation) (acc : ViolationListError),
      acc.len = acc.violations.length → AllFailYields arguments s sfin vs →
        atLeastOneOfLoop arguments acc s
          = (sfin, .ok (ViolationListError.mk (acc.violations ++ vs) (acc.len + vs.length))) := by
    intro arguments
    induction arguments with
    | nil =>
        rintro s sfin vs acc hacc ⟨rfl, rfl⟩
        obtain ⟨av, al⟩ := acc
        simp only [ViolationListError.len, ViolationListError.violations] at hacc
        subst hacc
        simp [atLeastOneOfLoop]
    | cons a rest ih =>
        rintro s sfin vs acc hacc ⟨s1, l, tailvs, hval, hlen, htail, rfl⟩
        simp only [atLeastOneOfLoop, hval]
        by_cases hz : l.len = 0
        · have hnil : l.violations = [] := by
            have := hlen.symm.trans hz
            exact List.length_eq_zero.mp this
          simp only [ViolationListError.AppendFromError, ViolationListError.Join,
            if_pos hz]
          rw [ih s1 sfin tailvs acc hacc htail]
          simp [hnil]
        · simp only [ViolationListError.AppendFromError, ViolationListError.Join,
            if_neg hz]
          rw [ih s1 sfin tailvs _ (by simp [hacc, hlen]) htail]
          simp [hlen, Nat.add_assoc]
  constructor
  · intro pre b rest s s1 s2 vs hpre hsucc
    have loopSucc : ∀ (p : List (ValidateFunc σ)) (t t1 : σ)
        (ws : List Violation) (acc : ViolationListError),
        AllFailYields p t t1 ws → Validator.Validate [b] t1 = (s2, none) →
          atLeastOneOfLoop (p ++ b :: rest) acc t
            = (s2, .ok (ViolationListError.mk [] 0)) := by
      intro p
      induction p with
      | nil =>
          rintro t t1 ws acc ⟨rfl, rfl⟩ hs
          simp only [List.nil_append, atLeastOneOfLoop, hs]
      | cons a pres ih =>
          rintro t t1 ws acc ⟨u1, l, tailvs, hval, hlen, htail, rfl⟩ hs
          simp only [List.cons_append, atLeastOneOfLoop, hval]
          by_cases hz : l.len = 0
          · simp only [ViolationListError.AppendFromError, ViolationListError.Join,
              if_pos hz]
            exact ih u1 t1 tailvs acc htail hs
          · simp only [ViolationListError.AppendFromError, ViolationListError.Join,
              if_neg hz]
            exact ih u1 t1 tailvs _ htail hs
    exact loopSucc pre s s1 vs _ hpre hsucc
  · intro arguments s sfin vs h
    simpa using loopFail arguments s sfin vs { violations := [], len := 0 } rfl h

/-- A concrete violation used by the concrete executions below. -/
def vA : Violation :=
  { err := [1], message := "A failed" }

/-- A closure that bumps a counter and reports one violation. -/
def failingClosure : ValidateFunc Nat :=
  fun n => (n + 1, .ok (NewViolationList [vA]))

/-- A closure that bumps a counter and reports no violation. -/
def passingClosure : ValidateFunc Nat :=
  fun n => (n + 1, .ok (NewViolationList []))

/-- A closure that bumps a counter and fails with a fatal error. -/
def fatalClosure : ValidateFunc Nat :=
  fun n => (n + 1, .error (.fatal "boom"))

theorem sequential_short_circuit_witness :
    SequentialArgument.validate false [failingClosure, fatalClosure] 0
      = (1, .ok (ViolationListError.mk [vA] 1)) :=
  (sequential_short_circuit failingClosure [fatalClosure] 0 1).2.1
    (ViolationListError.mk [vA] 1) rfl (by decide)

theorem atLeastOneOf_first_success_witness :
    AtLeastOneOfArgument.validate false [failingClosure, passingClosure, fatalClosure] 0
      = (2, .ok (ViolationListError.mk [] 0)) :=
  (atLeastOneOf_first_success (σ := Nat)).1 [failingClosure] passingClosure
    [fatalClosure] 0 1 2 [vA]
    ⟨1, ViolationListError.mk [vA] 1, [], rfl, rfl, ⟨rfl, rfl⟩, rfl⟩ rfl

/-- The apostrophe character used for bracketed-quoted property names. -/
def quoteChar : Char := Char.ofNat 39

/-- The backslash escape character. -/
def backslashChar : Char := Char.ofNat 92

/-- A `PropertyPathElement`: either a `PropertyName` or an `ArrayIndex`
(Go `int`, modelled by `Int`). -/
inductive PropertyPathElement where
  | PropertyName (name : String)
  | ArrayIndex (i : Int)
deriving DecidableEq

/-- A `*PropertyPath`, represented by its root-to-leaf element sequence
(the value of `Elements()`); the empty list is the root path. -/
abbrev PropertyPath := List PropertyPathElement

/-- `PropertyPath.WithProperty(name)`: appends a new leaf element. -/
def PropertyPath.WithProperty (path : PropertyPath) (name : String) : PropertyPath :=
  path ++ [.PropertyName name]

/-- `PropertyPath.WithIndex(index)`: appends a new leaf element. -/
def PropertyPath.WithIndex (path : PropertyPath) (index : Int) : PropertyPath :=
  path ++ [.ArrayIndex index]

/-- `unicode.IsLetter`: a finite fragment of the Unicode category-L table
standing in for Go's full table, covering the ASCII letters and the Latin-1
letter ranges (U+00C0 to U+00D6, U+00D8 to U+00F6, U+00F8 to U+00FF).  The
source accepts every category-L rune; encoder (`isIdentifier`) and parser
(`handleOther`) both call this one predicate, exactly as both sides of the
source call `unicode.IsLetter`, so letters are classified consistently on
both sides, whatever the table's extent. -/
def unicodeIsLetter (c : Char) : Bool :=
  (65 ≤ c.toNat && c.toNat ≤ 90) || (97 ≤ c.toNat && c.toNat ≤ 122)
    || (192 ≤ c.toNat && c.toNat ≤ 214) || (216 ≤ c.toNat && c.toNat ≤ 246)
    || (248 ≤ c.toNat && c.toNat ≤ 255)

/-- The decimal digit characters `'0'` through `'9'`: the explicit cases of
the parser's digit dispatch (`case '0', ..., '9'` in `handleNext`) and the
digits accepted by `strconv.ParseUint`. -/
def isDigitChar (c : Char) : Bool :=
  48 ≤ c.toNat && c.toNat ≤ 57

/-- `unicode.IsDigit`: a finite fragment of the Unicode category-Nd table
standing in for Go's full table, covering the ASCII digits and the
Arabic-Indic digit block U+0660 to U+0669.  The source accepts every
category-Nd rune.  Only the encoder's `isIdentifierChar` uses this
predicate; the parser's digit dispatch is the ASCII `isDigitChar` above —
this asymmetry is the source's, and any non-ASCII rune of this table
exhibits it. -/
def unicodeIsDigit (c : Char) : Bool :=
  isDigitChar c || (1632 ≤ c.toNat && c.toNat ≤ 1641)

/-- `isFirstIdentifierChar`. -/
def isFirstIdentifierChar (c : Char) : Bool :=
  unicodeIsLetter c || c == '$' || c == '_'

/-- `isIdentifierChar`. -/
def isIdentifierChar (c : Char) : Bool :=
  unicodeIsLetter c || unicodeIsDigit c || c == '$' || c == '_'

/-- `isIdentifier`: nonempty, first char a letter/`$`/`_`, remaining chars
letters/digits/`$`/`_`. -/
def isIdentifier (s : String) : Bool :=
  match s.data with
  | [] => false
  | c :: rest => isFirstIdentifierChar c && rest.all isIdentifierChar

/-- The character for one decimal digit (the digit table of `strconv`). -/
def digitChar : Nat → Char
  | 0 => '0'
  | 1 => '1'
  | 2 => '2'
  | 3 => '3'
  | 4 => '4'
  | 5 => '5'
  | 6 => '6'
  | 7 => '7'
  | 8 => '8'
  | _ => '9'

/-- Decimal digits of `n`, most significant first, accumulated onto `acc`.
The structural fuel argument (any value above the digit count works; callers
pass `n + 1`) keeps the definition kernel-reducible. -/
def natToCharsAux : Nat → Nat → List Char → List Char
  | 0, _, acc => acc
  | fuel + 1, n, acc =>
      if n < 10 then digitChar n :: acc
      else natToCharsAux fuel (n / 10) (digitChar (n % 10) :: acc)

/-- Decimal representation of a natural number. -/
def natToChars (n : Nat) : List Char :=
  natToCharsAux (n + 1) n []

/-- `strconv.Itoa` over the model's `Int`. -/
def Itoa (i : Int) : List Char :=
  if i < 0 then '-' :: natToChars i.natAbs else natToChars i.toNat

/-- `writePropertyName`: writes the name with `'` and `\` escaped by a
preceding backslash. -/
def writePropertyName (name : List Char) : List Char :=
  name.flatMap fun c =>
    if c = quoteChar || c = backslashChar then [backslashChar, c] else [c]

/-- One element of `PropertyPath.String()`: an index as `[n]`, an identifier
dot-joined (no dot before the very first element), any other name
bracket-quoted with escapes. -/
def renderedElement (isFirst : Bool) (e : PropertyPathElement) : List Char :=
  match e with
  | .ArrayIndex i => '[' :: (Itoa i ++ [']'])
  | .PropertyName name =>
      if isIdentifier name then (if isFirst then [] else ['.']) ++ name.data
      else '[' :: quoteChar :: (writePropertyName name.data ++ [quoteChar, ']'])

/-- The loop of `PropertyPath.String()` over the elements. -/
def renderElements : Bool → PropertyPath → List Char
  | _, [] => []
  | isFirst, e :: rest => renderedElement isFirst e ++ renderElements false rest

/-- `PropertyPath.String()`; the output Go string is its rune sequence. -/
def PropertyPath.String (path : PropertyPath) : List Char :=
  renderElements true path

/-- The error classes of `strconv.ParseUint`. -/
inductive numError where
  | syntaxError
  | rangeError
deriving DecidableEq

/-- Value of a decimal digit string (the accumulating loop of
`strconv.ParseUint`). -/
def decimalValue (s : List Char) : Nat :=
  s.foldl (fun acc c => acc * 10 + (c.toNat - 48)) 0

/-- `strconv.ParseUint(s, 10, 0)` on a 64-bit platform: rejects an empty or
non-digit string as a syntax error and a value above `math.MaxUint64` as a
range error. -/
def parseUint (s : List Char) : Except numError Nat :=
  if s.isEmpty then .error .syntaxError
  else if s.all isDigitChar then
    if goMaxUint64 < decimalValue s then .error .rangeError else .ok (decimalValue s)
  else .error .syntaxError

/-- The parsing states of the path parser. -/
inductive parsingState where
  | initialState
  | beginIdentifierState
  | identifierState
  | beginIndexState
  | indexState
  | bracketedNameState
  | endBracketedNameState
  | closeBracketState
deriving DecidableEq

/-- The three error types produced by the path parser: `pathParsingError`
(end-of-input errors), `pathParsingCharError` (unexpected characters, with
the byte offset of the character) and `pathParsingProcessingError` (index
conversion failures).  Each carries the index of the path segment being
parsed. -/
inductive pathError where
  | pathParsingError (pathIndex : Nat) (message : String)
  | pathParsingCharError (index pathIndex : Nat) (char : Char) (message : String)
  | pathParsingProcessingError (pathIndex : Nat) (message : String)
deriving DecidableEq

/-- The `pathParser` state.  The Go struct also stores the byte offset of
the current rune in an `index` field written immediately before each
dispatch and read only by that dispatch's error constructors; the model
passes that offset as an explicit argument to the handlers instead. -/
structure pathParser where
  path : PropertyPath
  buffer : List Char
  pathIndex : Nat
  state : parsingState
  isEscape : Bool
deriving DecidableEq

/-- `pathParser.addProperty`. -/
def pathParser.addProperty (p : pathParser) : pathParser :=
  { p with
    path := p.path.WithProperty (String.mk p.buffer)
    pathIndex := p.pathIndex + 1
    buffer := [] }

/-- `pathParser.addIndex`: the buffered content must parse as an unsigned
integer that also fits the signed `int` range. -/
def pathParser.addIndex (p : pathParser) : Except pathError pathParser :=
  match parseUint p.buffer with
  | .error .rangeError =>
      .error (.pathParsingProcessingError p.pathIndex
        ("value out of range: " ++ String.mk p.buffer))
  | .error .syntaxError =>
      .error (.pathParsingProcessingError p.pathIndex
        ("invalid array index: " ++ String.mk p.buffer))
  | .ok u =>
      if goMaxInt < u then
        .error (.pathParsingProcessingError p.pathIndex
          ("value out of range: " ++ String.mk p.buffer))
      else
        .ok { p with
          path := p.path.WithIndex (Int.ofNat u)
          pathIndex := p.pathIndex + 1
          buffer := [] }

/-- `pathParser.handleOpenBracket`. -/
def pathParser.handleOpenBracket (p : pathParser) (index : Nat) (c : Char) :
    Except pathError pathParser :=
  match p.state with
  | .beginIdentifierState | .beginIndexState | .indexState | .endBracketedNameState =>
      .error (.pathParsingCharError index p.pathIndex c "unexpected char")
  | .identifierState =>
      .ok { (if 0 < p.buffer.length then p.addProperty else p) with
        state := .beginIndexState }
  | .initialState | .closeBracketState => .ok { p with state := .beginIndexState }
  | .bracketedNameState => .ok { p with buffer := p.buffer ++ [c] }

/-- `pathParser.handleCloseBracket`. -/
def pathParser.handleCloseBracket (p : pathParser) (index : Nat) (c : Char) :
    Except pathError pathParser :=
  match p.state with
  | .indexState => p.addIndex.map fun p1 => { p1 with state := .closeBracketState }
  | .bracketedNameState => .ok { p with buffer := p.buffer ++ [c] }
  | .endBracketedNameState => .ok { p.addProperty with state := .closeBracketState }
  | _ => .error (.pathParsingCharError index p.pathIndex c "unexpected close bracket")

/-- `pathParser.handleDigit`. -/
def pathParser.handleDigit (p : pathParser) (index : Nat) (c : Char) :
    Except pathError pathParser :=
  match p.state with
  | .beginIndexState | .indexState =>
      .ok { p with state := .indexState, buffer := p.buffer ++ [c] }
  | .bracketedNameState | .identifierState => .ok { p with buffer := p.buffer ++ [c] }
  | .initialState | .beginIdentifierState =>
      .error (.pathParsingCharError index p.pathIndex c "unexpected identifier character")
  | .closeBracketState | .endBracketedNameState =>
      .error (.pathParsingCharError index p.pathIndex c "invalid array index")

/-- `pathParser.handlePoint`. -/
def pathParser.handlePoint (p : pathParser) (index : Nat) (c : Char) :
    Except pathError pathParser :=
  match p.state with
  | .beginIdentifierState | .identifierState =>
      if p.buffer.length = 0 then
        .error (.pathParsingCharError index p.pathIndex c "unexpected point")
      else .ok { p.addProperty with state := .beginIdentifierState }
  | .bracketedNameState => .ok { p with buffer := p.buffer ++ [c] }
  | .closeBracketState => .ok { p with state := .beginIdentifierState }
  | _ => .error (.pathParsingCharError index p.pathIndex c "unexpected point")

/-- `pathParser.handleQuote`. -/
def pathParser.handleQuote (p : pathParser) (index : Nat) (c : Char) :
    Except pathError pathParser :=
  if p.isEscape then .ok { p with buffer := p.buffer ++ [c], isEscape := false }
  else
    match p.state with
    | .beginIndexState => .ok { p with state := .bracketedNameState }
    | .bracketedNameState => .ok { p with state := .endBracketedNameState }
    | _ => .error (.pathParsingCharError index p.pathIndex c "unexpected quote")

/-- `pathParser.handleEscape`. -/
def pathParser.handleEscape (p : pathParser) (index : Nat) (c : Char) :
    Except pathError pathParser :=
  if p.state ≠ .bracketedNameState then
    .error (.pathParsingCharError index p.pathIndex c "unexpected backslash")
  else if p.isEscape then .ok { p with buffer := p.buffer ++ [c], isEscape := false }
  else .ok { p with isEscape := true }

/-- `pathParser.handleOther`. -/
def pathParser.handleOther (p : pathParser) (index : Nat) (c : Char) :
    Except pathError pathParser :=
  match p.state with
  | .beginIndexState | .indexState =>
      .error (.pathParsingCharError index p.pathIndex c "unexpected array index character")
  | .initialState | .beginIdentifierState | .identifierState =>
      if !isFirstIdentifierChar c then
        .error (.pathParsingCharError index p.pathIndex c "unexpected identifier char")
      else .ok { p with state := .identifierState, buffer := p.buffer ++ [c] }
  | .closeBracketState | .endBracketedNameState =>
      .error (.pathParsingCharError index p.pathIndex c "unexpected char")
  | .bracketedNameState => .ok { p with buffer := p.buffer ++ [c] }

/-- `pathParser.handleNext`: the character dispatch. -/
def pathParser.handleNext (p : pathParser) (index : Nat) (c : Char) :
    Except pathError pathParser :=
  if c = '[' then p.handleOpenBracket index c
  else if c = ']' then p.handleCloseBracket index c
  else if isDigitChar c then p.handleDigit index c
  else if c = quoteChar then p.handleQuote index c
  else if c = backslashChar then p.handleEscape index c
  else if c = '.' then p.handlePoint index c
  else p.handleOther index c

/-- `pathParser.finish`: classifies end-of-input by the final state. -/
def pathParser.finish (p : pathParser) : Except pathError PropertyPath :=
  match p.state with
  | .beginIdentifierState | .identifierState =>
      if p.buffer.length = 0 then
        .error (.pathParsingError p.pathIndex "incomplete property name")
      else .ok (p.path.WithProperty (String.mk p.buffer))
  | .beginIndexState | .indexState =>
      .error (.pathParsingError p.pathIndex "incomplete array index")
  | .bracketedNameState | .endBracketedNameState =>
      .error (.pathParsingError p.pathIndex "incomplete bracketed property name")
  | .closeBracketState => .ok p.path
  | .initialState => .error (.pathParsingError p.pathIndex "unexpected parsing state")

/-- The character loop of `pathParser.Parse`, carrying the byte offset of
the current rune. -/
def pathParser.run : pathParser → Nat → List Char → Except pathError pathParser
  | p, _, [] => .ok p
  | p, offset, c :: rest =>
      match p.handleNext offset c with
      | .error e => .error e
      | .ok p1 => pathParser.run p1 (offset + c.utf8Size) rest

/-- The zero value `pathParser{}`. -/
def initialParser : pathParser :=
  { path := [], buffer := [], pathIndex := 0, state := .initialState, isEscape := false }

/-- `pathParser.Parse(encodedPath)`: the empty input is the root path;
otherwise the state machine runs over the runes and `finish` closes it. -/
def pathParser.Parse (encodedPath : List Char) : Except pathError PropertyPath :=
  if encodedPath.length = 0 then .ok []
  else
    match pathParser.run initialParser 0 encodedPath with
    | .error e => .error e
    | .ok p => p.finish

instance {ε α : Type} [DecidableEq ε] [DecidableEq α] : DecidableEq (Except ε α)
  | .error e, .error f =>
      if h : e = f then .isTrue (by rw [h]) else .isFalse fun hc => h (Except.error.inj hc)
  | .error _, .ok _ => .isFalse fun hc => Except.noConfusion hc
  | .ok _, .error _ => .isFalse fun hc => Except.noConfusion hc
  | .ok a, .ok b =>
      if h : a = b then .isTrue (by rw [h]) else .isFalse fun hc => h (Except.ok.inj hc)

/-- The rendered text of `a.b[3]['c\'d']` as a rune sequence. -/
def sampleEncoded : List Char :=
  ['a', '.', 'b', '[', '3', ']', '[', quoteChar, 'c', backslashChar, quoteChar, 'd',
    quoteChar, ']']

/-- The element sequence of `a.b[3]['c\'d']`. -/
def sampleElements : PropertyPath :=
  [.PropertyName "a", .PropertyName "b", .ArrayIndex 3,
    .PropertyName (String.mk ['c', quoteChar, 'd'])]

/-- C7: the parser rejects `a[` (unterminated index) and `a['b`
(unterminated quoted name), each with an end-of-input error carrying the
index of the incomplete path segment (segment 1 in both); it accepts
`a.b[3]['c\'d']`, and re-encoding the parsed path reproduces the input
verbatim. -/
theorem parse_incomplete_and_verbatim :
    pathParser.Parse ['a', '['] = .error (.pathParsingError 1 "incomplete array index")
    ∧ pathParser.Parse ['a', '[', quoteChar, 'b']
        = .error (.pathParsingError 1 "incomplete bracketed property name")
    ∧ pathParser.Parse sampleEncoded = .ok sampleElements
    ∧ PropertyPath.String sampleElements = sampleEncoded := by
  refine ⟨by decide, by decide, by decide, by decide⟩

theorem parseUint_eq (buf : List Char) :
    parseUint buf =
      if buf ≠ [] ∧ buf.all isDigitChar = true then
        if goMaxUint64 < decimalValue buf then .error .rangeError
        else .ok (decimalValue buf)
      else .error .syntaxError := by
  by_cases hb : buf = []
  · subst hb
    simp [parseUint]
  · by_cases hd : buf.all isDigitChar = true
    · simp [parseUint, List.isEmpty_iff, hb, hd]
    · simp [parseUint, List.isEmpty_iff, hb, hd]

/-- C8: when a `]` closes an index, the buffered content must be a
non-empty all-digit string whose value fits the 64-bit signed index range:
then the value is appended to the path as an `ArrayIndex` and the state
moves past the bracket; non-numeric content fails the parse with a fatal
processing error naming the segment, and a value exceeding the range (either
beyond `uint64` during conversion or beyond `math.MaxInt` afterwards) fails
with an out-of-range processing error naming the segment. -/
theorem closeBracket_index_conversion (p : pathParser) (index : Nat)
    (h : p.state = .indexState) :
    pathParser.handleCloseBracket p index ']' =
      if p.buffer ≠ [] ∧ p.buffer.all isDigitChar = true then
        if decimalValue p.buffer ≤ goMaxInt then
          .ok { p with
            path := p.path.WithIndex (Int.ofNat (decimalValue p.buffer))
            pathIndex := p.pathIndex + 1
            buffer := []
            state := .closeBracketState }
        else
          .error (.pathParsingProcessingError p.pathIndex
            ("value out of range: " ++ String.mk p.buffer))
      else
        .error (.pathParsingProcessingError p.pathIndex
          ("invalid array index: " ++ String.mk p.buffer)) := by
  obtain ⟨path, buf, pidx, st, esc⟩ := p
  simp only at h
  subst h
  simp only [pathParser.handleCloseBracket, pathParser.addIndex, parseUint_eq]
  by_cases hcond : buf ≠ [] ∧ buf.all isDigitChar = true
  · rw [if_pos hcond, if_pos hcond]
    by_cases hr : goMaxUint64 < decimalValue buf
    · have hnotle : ¬ decimalValue buf ≤ goMaxInt := by
        have hgm : goMaxInt < goMaxUint64 := by decide
        omega
      rw [if_pos hr, if_neg hnotle]
      rfl
    · rw [if_neg hr]
      dsimp only
      by_cases hm : goMaxInt < decimalValue buf
      · rw [if_pos hm, if_neg (Nat.not_le.mpr hm)]
        rfl
      · rw [if_neg hm, if_pos (Nat.not_lt.mp hm)]
        rfl
  · rw [if_neg hcond, if_neg hcond]
    rfl

/-- A parser state about to close the index `[42`. -/
def sampleIndexParser : pathParser :=
  { path := [], buffer := ['4', '2'], pathIndex := 0, state := .indexState, isEscape := false }

theorem closeBracket_index_conversion_witness :
    pathParser.handleCloseBracket sampleIndexParser 5 ']'
      = .ok { path := [.ArrayIndex 42], buffer := [], pathIndex := 1, state := .closeBracketState, isEscape := false } := by
  rw [closeBracket_index_conversion sampleIndexParser 5 rfl]
  decide

